import Mathlib

/-!
Verification development for the BTBackup chat-log video backup tool
(src/BTBackup.py and src/MultihoofLogReader.py).

Strings are modelled as `List Char` (`Str`).  Python string primitives used
by the source are embedded faithfully:

* `pySplit sep s` models Python `s.split(sep)` for a non-empty separator
  (left-to-right scan over non-overlapping occurrences).  It is written with
  an explicit fuel argument (`pySplitAux`, fuel = length of the input) so
  that it is structurally recursive and evaluates inside the kernel.
* `containsSeq pat s` models Python `pat in s`.
* `pyStrip` models `str.strip()` (ASCII whitespace; Python also strips some
  Unicode whitespace, which no claim depends on).
* `pyFind c s` models `s.find(c)` for a single-character needle (first
  index, or -1), and `pySliceTo s k` models the slice `s[:k]` including the
  negative-index convention.
* Python's `\d` is modelled as an ASCII digit.

I/O boundaries are modelled as explicit inputs: the chat-log reader's line
stream becomes a `List Str`, the target directory becomes an
`Option (List Str)` (`none` when the directory does not exist), and the
persisted `unavailableVideos.txt` becomes an `Option Str` of raw file
contents.  Python `dict` (insertion-ordered) becomes an association list
and Python `set` becomes a duplicate-free accumulation list whose
membership is the set membership.  Code paths that raise an uncaught
exception (`IndexError` from `error.split(': ')[1]` on a line without the
delimiter) are modelled with `Option`, `none` meaning the exception.
-/

namespace BTBackup

abbrev Str := List Char

/-- Does the second list start with the first (pattern) list? -/
def startsWithSeq : Str → Str → Bool
  | [], _ => true
  | _ :: _, [] => false
  | p :: ps, c :: cs => p == c && startsWithSeq ps cs

/-- Python `pat in s`: some position of `s` starts with `pat`. -/
def containsSeq (pat : Str) : Str → Bool
  | [] => startsWithSeq pat []
  | c :: cs => startsWithSeq pat (c :: cs) || containsSeq pat cs

/-- Fuel-driven worker for `pySplit`; with fuel at least the length of the
input it implements Python `split` for a non-empty separator. -/
def pySplitAux (sep : Str) : Nat → Str → List Str
  | _, [] => [[]]
  | 0, s => [s]
  | fuel + 1, c :: cs =>
    if startsWithSeq sep (c :: cs) then
      [] :: pySplitAux sep fuel (cs.drop (sep.length - 1))
    else
      match pySplitAux sep fuel cs with
      | [] => [[c]]
      | h :: t => (c :: h) :: t

/-- Python `s.split(sep)` for non-empty `sep`. -/
def pySplit (sep s : Str) : List Str := pySplitAux sep s.length s

/-- ASCII whitespace, as stripped by Python `str.strip()`. -/
def pyIsSpace (c : Char) : Bool :=
  c == ' ' || c == '\t' || c == '\n' || c == '\r' ||
  c == Char.ofNat 11 || c == Char.ofNat 12

/-- Python `s.strip()`. -/
def pyStrip (s : Str) : Str :=
  ((s.dropWhile pyIsSpace).reverse.dropWhile pyIsSpace).reverse

/-- Python `s.find(c)` for a one-character needle: first index or -1. -/
def pyFind (c : Char) : Str → Int
  | [] => -1
  | x :: xs =>
    if x == c then 0
    else
      let r := pyFind c xs
      if r < 0 then -1 else r + 1

/-- Python slice `s[:k]`, including the negative-index convention. -/
def pySliceTo (s : Str) (k : Int) : Str :=
  if k < 0 then s.take ((s.length : Int) + k).toNat else s.take k.toNat

/-! ## The data model of BTBackup.py -/

/-- The `Video` record of BTBackup.py (class `Video`): `title`, `vidId`,
`source` (`"yt"` or `"vimeo"`), `playCount`, and the derived episode flag. -/
structure Video where
  title : Str
  vidId : Str
  source : Str
  playCount : Nat
  isAnEpisode : Bool
  deriving DecidableEq

/-- The anchored regex `^\dx\d\d$` of `Video.episodeRegex`, applied with
`re.match`: the whole title is one digit, a literal `x`, and two digits. -/
def episodeMatch (title : Str) : Bool :=
  match title with
  | [a, x, b, c] => a.isDigit && x == 'x' && b.isDigit && c.isDigit
  | _ => false

def nowPlayingMarker : Str := "Now Playing:".toList
def youtubeDelimiter : Str := " ( https://youtu.be/".toList
def vimeoDelimiter : Str := " ( https://vimeo.com/".toList

/-- `Video.parseLogLine`: strip the line, take element 1 of the split on
`"Now Playing:"` (IndexError -> `none` when absent), then split the payload
on the YouTube delimiter (checked first) or the Vimeo delimiter.  The
2-tuple unpacking `title, vidId = payload.split(...)` raises (`none`)
unless the split has exactly two fields.  No recognized delimiter raises
`ValueError` (`none`). -/
def parseLogLine (logLine : Str) : Option (Str × Str × Str) :=
  match pySplit nowPlayingMarker (pyStrip logLine) with
  | _ :: payload :: _ =>
    if containsSeq youtubeDelimiter payload then
      match pySplit youtubeDelimiter payload with
      | [title, vidId] => some (title, vidId, "yt".toList)
      | _ => none
    else if containsSeq vimeoDelimiter payload then
      match pySplit vimeoDelimiter payload with
      | [title, vidId] => some (title, vidId, "vimeo".toList)
      | _ => none
    else none
  | _ => none

/-- The `Video.__init__` constructor: parse the line and build the record
with `playCount = 1` and the episode flag derived from the title. -/
def videoOfLine (logLine : Str) : Option Video :=
  match parseLogLine logLine with
  | none => none
  | some (title, vidId, source) =>
    some { title := title, vidId := vidId, source := source,
           playCount := 1, isAnEpisode := episodeMatch title }

/-- `Video.incrementCount`. -/
def Video.incrementCount (v : Video) : Video :=
  { v with playCount := v.playCount + 1 }

/-- One step of the `getVideosById` loop body on the `videosById` dict,
modelled as an insertion-ordered association list keyed by `vidId`. -/
def insertVideo (catalog : List (Str × Video)) (v : Video) :
    List (Str × Video) :=
  if catalog.any (fun p => p.1 == v.vidId) then
    catalog.map (fun p => if p.1 == v.vidId then (p.1, p.2.incrementCount) else p)
  else
    catalog ++ [(v.vidId, v)]

/-- The `getVideosById` loop: on parse failure append the line to `errors`
(modelled by the failure count) and continue; otherwise insert or increment. -/
def getVideosByIdAux (acc : List (Str × Video) × Nat) :
    List Str → List (Str × Video) × Nat
  | [] => acc
  | line :: rest =>
    match videoOfLine line with
    | none => getVideosByIdAux (acc.1, acc.2 + 1) rest
    | some v => getVideosByIdAux (insertVideo acc.1 v, acc.2) rest

/-- `getVideosById`, with the chat-log reader's line stream made explicit:
returns the catalog and the number of unparseable lines (the length of the
`errors` list the code reports at the end). -/
def getVideosById (lines : List Str) : List (Str × Video) × Nat :=
  getVideosByIdAux ([], 0) lines

/-- `parseId`: `vidTitle.split(' - ')[-1]` then the slice up to
`idPartition.find('.')` (which is -1, hence drops the final character,
when there is no dot). -/
def parseId (vidTitle : Str) : Str :=
  let idPartition := (pySplit (" - ".toList) vidTitle).getLastD []
  pySliceTo idPartition (pyFind '.' idPartition)

/-- `getAlreadyDownloadedVidIds`: `none` models a target directory that
does not exist (`os.path.isdir` false); otherwise the directory listing is
mapped through `parseId`. -/
def getAlreadyDownloadedVidIds (dirListing : Option (List Str)) : List Str :=
  match dirListing with
  | none => []
  | some names => names.map parseId

/-- The `videoShouldBeDownloaded` predicate of `filterVideos`:
`playCount >= requiredPlays`, id not already downloaded, id not known
unavailable, and not an episode.  `requiredPlays` is an `Int` because the
CLI parses it with `type=int`. -/
def videoShouldBeDownloaded (alreadyDownloadedIds knownUnavailableIds : List Str)
    (requiredPlays : Int) (v : Video) : Bool :=
  decide (requiredPlays ≤ (v.playCount : Int)) &&
  !(decide (v.vidId ∈ alreadyDownloadedIds)) &&
  !(decide (v.vidId ∈ knownUnavailableIds)) &&
  !v.isAnEpisode

/-- `filterVideos`: the list comprehension over `videosById.values()`. -/
def filterVideos (videosById : List (Str × Video))
    (alreadyDownloadedIds knownUnavailableIds : List Str)
    (requiredPlays : Int) : List Video :=
  (videosById.map Prod.snd).filter
    (videoShouldBeDownloaded alreadyDownloadedIds knownUnavailableIds requiredPlays)

/-- The id extraction `error.split(': ')[1]` used by `processErrors`:
`none` models the uncaught `IndexError` when the line has no `": "`. -/
def extractVidId (error : Str) : Option Str :=
  match pySplit (": ".toList) error with
  | _ :: vidId :: _ => some vidId
  | _ => none

/-- Adding one element to a Python-set model (duplicate-free list). -/
def insertSet (s : List Str) (v : Str) : List Str :=
  if v ∈ s then s else s ++ [v]

/-- The final loop of `processErrors`, which builds `newlyUnavailable`.
The `KeyError` from the catalog title lookup is caught by the code after
the id has already been added, and the category loops only print, so the
catalog does not influence the returned set; an error line without `": "`
raises an uncaught `IndexError` (`none`), in which case no set is returned
at all. -/
def processErrorsAux (acc : List Str) : List Str → Option (List Str)
  | [] => some acc
  | e :: es =>
    match extractVidId e with
    | none => none
    | some v => processErrorsAux (insertSet acc v) es

/-- `processErrors`, reduced to its returned value. -/
def processErrors (errors : List Str) : Option (List Str) :=
  processErrorsAux [] errors

/-- The substring tests of the "unavailable" category of `processErrors`. -/
def isUnavailableCategory (e : Str) : Bool :=
  containsSeq ("This video is unavailable.".toList) e ||
  containsSeq ("This video is no longer available".toList) e ||
  containsSeq ("Unable to download webpage".toList) e

/-- Python `f.readlines()` on whole file contents: split on newline, and
drop the empty final field produced by a trailing newline (readlines does
not yield an empty final line). -/
def pyReadLines (contents : Str) : List Str :=
  let parts := pySplit ("\n".toList) contents
  if parts.getLast? = some [] then parts.dropLast else parts

/-- `readInUnavailableVideos`: `none` models `FileNotFoundError` (empty
set); otherwise each line is stripped and collected into a set. -/
def readInUnavailableVideos (fileContents : Option Str) : List Str :=
  match fileContents with
  | none => []
  | some contents => ((pyReadLines contents).map pyStrip).foldl insertSet []

/-- The final write of `main`: `print(vidId, file=unavailable)` for every
member, i.e. each id followed by a newline, into a freshly opened (mode
`'w'`, full overwrite) file. -/
def writeUnavailableFile (ids : List Str) : Str :=
  (ids.map (fun v => v ++ ['\n'])).flatten

/-- Python `set.update`. -/
def setUpdate (s newIds : List Str) : List Str := newIds.foldl insertSet s

/-- The end-of-run state of `main`: the loaded set, updated with
`processErrors` output when any download errors occurred.  `none` models
the run crashing inside `processErrors` (file never written). -/
def mainPersistedSet (knownUnavailableIds : List Str)
    (downloadErrors : List Str) : Option (List Str) :=
  if downloadErrors.length > 0 then
    match processErrors downloadErrors with
    | none => none
    | some newly => some (setUpdate knownUnavailableIds newly)
  else some knownUnavailableIds

/-- Joining a list of fields with a separator; the left inverse of
`pySplit` used to reason about where split fields sit inside the input. -/
def joinSep (sep : Str) : List Str → Str
  | [] => []
  | [x] => x
  | x :: y :: xs => x ++ sep ++ joinSep sep (y :: xs)

/-- The catalog invariant maintained by the `getVideosById` loop: keys are
duplicate-free, each entry is keyed by its record's `vidId`, every record
has been played at least once, and the episode flag is the one derived
from the record's title by the `Video` constructor. -/
def catalogWf (catalog : List (Str × Video)) : Prop :=
  (catalog.map Prod.fst).Nodup ∧
  ∀ p ∈ catalog, p.1 = p.2.vidId ∧ 1 ≤ p.2.playCount ∧
    p.2.isAnEpisode = episodeMatch p.2.title

/-! ## Lemmas about the embedded Python string primitives -/

theorem startsWithSeq_nil (s : Str) : startsWithSeq [] s = true := by
  cases s <;> rfl

theorem startsWithSeq_self (p : Str) : startsWithSeq p p = true := by
  induction p with
  | nil => rfl
  | cons c cs ih => simp [startsWithSeq, ih]

theorem startsWithSeq_append_right {p s : Str} (t : Str)
    (h : startsWithSeq p s = true) : startsWithSeq p (s ++ t) = true := by
  induction p generalizing s with
  | nil => exact startsWithSeq_nil _
  | cons a as ih =>
    cases s with
    | nil => simp [startsWithSeq] at h
    | cons c cs =>
      simp only [startsWithSeq, Bool.and_eq_true] at h
      simp only [List.cons_append, startsWithSeq, Bool.and_eq_true]
      exact ⟨h.1, ih h.2⟩

theorem startsWithSeq_of_append {p s : Str} (t : Str)
    (hlen : p.length ≤ s.length)
    (h : startsWithSeq p (s ++ t) = true) : startsWithSeq p s = true := by
  induction p generalizing s with
  | nil => exact startsWithSeq_nil _
  | cons a as ih =>
    cases s with
    | nil => simp at hlen
    | cons c cs =>
      simp only [List.cons_append, startsWithSeq, Bool.and_eq_true] at h
      simp only [startsWithSeq, Bool.and_eq_true]
      refine ⟨h.1, ih (by simpa using hlen) h.2⟩

theorem startsWithSeq_eq_append {p s : Str} (h : startsWithSeq p s = true) :
    s = p ++ s.drop p.length := by
  induction p generalizing s with
  | nil => simp
  | cons a as ih =>
    cases s with
    | nil => simp [startsWithSeq] at h
    | cons c cs =>
      simp only [startsWithSeq, Bool.and_eq_true, beq_iff_eq] at h
      obtain ⟨rfl, h2⟩ := h
      simpa using ih h2

theorem containsSeq_nil_pat (s : Str) : containsSeq [] s = true := by
  cases s <;> simp [containsSeq, startsWithSeq]

theorem containsSeq_of_startsWith {p s : Str} (h : startsWithSeq p s = true) :
    containsSeq p s = true := by
  cases s with
  | nil => exact h
  | cons c cs => simp [containsSeq, h]

theorem containsSeq_append_right {p t : Str} (s : Str)
    (h : containsSeq p t = true) : containsSeq p (s ++ t) = true := by
  induction s with
  | nil => exact h
  | cons c cs ih =>
    simp only [List.cons_append, containsSeq, Bool.or_eq_true]
    exact Or.inr ih

theorem containsSeq_append_left {p s : Str} (t : Str)
    (h : containsSeq p s = true) : containsSeq p (s ++ t) = true := by
  induction s with
  | nil =>
    cases p with
    | nil => exact containsSeq_nil_pat _
    | cons a as => simp [containsSeq, startsWithSeq] at h
  | cons c cs ih =>
    simp only [containsSeq, Bool.or_eq_true] at h
    simp only [List.cons_append, containsSeq, Bool.or_eq_true]
    rcases h with h | h
    · exact Or.inl (by simpa using startsWithSeq_append_right t h)
    · exact Or.inr (ih h)

theorem containsSeq_middle {p m : Str} (a b : Str) (h : containsSeq p m = true) :
    containsSeq p (a ++ m ++ b) = true := by
  rw [List.append_assoc]
  exact containsSeq_append_right a (containsSeq_append_left b h)

/-! ## Lemmas about `pySplit` -/

theorem pySplitAux_ne_nil (sep : Str) : ∀ (f : Nat) (s : Str), pySplitAux sep f s ≠ []
  | _, [] => by simp [pySplitAux]
  | 0, _ :: _ => by simp [pySplitAux]
  | _ + 1, c :: cs => by
    simp only [pySplitAux]
    split
    · simp
    · split <;> simp

theorem pySplitAux_fuel (sep : Str) :
    ∀ (f g : Nat) (s : Str), s.length ≤ f → s.length ≤ g →
      pySplitAux sep f s = pySplitAux sep g s := by
  intro f
  induction f with
  | zero =>
    intro g s hf _
    cases s with
    | nil => cases g <;> rfl
    | cons c cs => simp at hf
  | succ f ih =>
    intro g s hf hg
    cases s with
    | nil => cases g <;> rfl
    | cons c cs =>
      cases g with
      | zero => simp at hg
      | succ g =>
        simp only [List.length_cons, Nat.succ_le_succ_iff] at hf hg
        simp only [pySplitAux]
        by_cases h : startsWithSeq sep (c :: cs) = true
        · simp only [h, if_true]
          congr 1
          exact ih g _ (le_trans (by simpa using List.length_drop_le _ _) hf)
            (le_trans (by simpa using List.length_drop_le _ _) hg)
        · rw [if_neg h, if_neg h, ih g cs hf hg]

theorem pySplit_cons (sep : Str) (c : Char) (cs : Str) :
    pySplit sep (c :: cs) =
      if startsWithSeq sep (c :: cs) then
        [] :: pySplit sep (cs.drop (sep.length - 1))
      else
        match pySplit sep cs with
        | [] => [[c]]
        | h :: t => (c :: h) :: t := by
  show pySplitAux sep (cs.length + 1) (c :: cs) = _
  simp only [pySplitAux]
  by_cases h : startsWithSeq sep (c :: cs) = true
  · simp only [h, if_true]
    congr 1
    exact pySplitAux_fuel sep cs.length (cs.drop (sep.length - 1)).length _
      (by simpa using List.length_drop_le _ _) le_rfl
  · rw [if_neg h, if_neg h]
    rfl

theorem pySplit_ne_nil (sep s : Str) : pySplit sep s ≠ [] :=
  pySplitAux_ne_nil sep s.length s

theorem pySplit_of_not_contains (sep : Str) :
    ∀ {s : Str}, containsSeq sep s = false → pySplit sep s = [s] := by
  intro s
  induction s with
  | nil => intro _; rfl
  | cons c cs ih =>
    intro h
    simp only [containsSeq, Bool.or_eq_false_iff] at h
    rw [pySplit_cons, if_neg (by simp [h.1]), ih h.2]

theorem pySplit_append_sep (sep : Str) (hsep : sep ≠ []) :
    ∀ (a b : Str), containsSeq sep (a ++ sep.dropLast) = false →
      pySplit sep (a ++ sep ++ b) = a :: pySplit sep b := by
  intro a
  induction a with
  | nil =>
    intro b _
    cases hs : sep with
    | nil => exact absurd hs hsep
    | cons d ds =>
      rw [← hs]
      have hb : sep ++ b = d :: (ds ++ b) := by rw [hs]; simp
      rw [List.nil_append, hb, pySplit_cons]
      have hst : startsWithSeq sep (d :: (ds ++ b)) = true := by
        rw [← hb]
        exact startsWithSeq_append_right b (startsWithSeq_self sep)
      rw [if_pos hst]
      have hlen : sep.length - 1 = ds.length := by rw [hs]; simp
      rw [hlen, List.drop_left]

  | cons c a' ih =>
    intro b h
    have hsplit : (c :: a') ++ sep.dropLast ≠ [] := by simp
    have hstart : startsWithSeq sep (c :: (a' ++ sep ++ b)) = false := by
      by_contra hne
      rw [Bool.not_eq_false] at hne
      have hdecomp : c :: (a' ++ sep ++ b) =
          ((c :: a') ++ sep.dropLast) ++ ([sep.getLast hsep] ++ b) := by
        conv_lhs => rw [show sep = sep.dropLast ++ [sep.getLast hsep] from
          (List.dropLast_append_getLast hsep).symm]
        simp [List.append_assoc]
      rw [hdecomp] at hne
      have hlen : sep.length ≤ ((c :: a') ++ sep.dropLast).length := by
        have : 1 ≤ sep.length := List.length_pos.mpr hsep
        simp [List.length_append, List.length_dropLast]
        omega
      have := containsSeq_of_startsWith (startsWithSeq_of_append _ hlen hne)
      rw [this] at h
      cases h
    have h2 : containsSeq sep (a' ++ sep.dropLast) = false := by
      have : (c :: a') ++ sep.dropLast = c :: (a' ++ sep.dropLast) := by simp
      rw [this] at h
      simp only [containsSeq, Bool.or_eq_false_iff] at h
      exact h.2
    have hcons : (c :: a') ++ sep ++ b = c :: (a' ++ sep ++ b) := by simp
    rw [hcons, pySplit_cons, if_neg (by rw [Bool.not_eq_true]; exact hstart), ih b h2]

theorem joinSep_pySplitAux (sep : Str) (hsep : sep ≠ []) :
    ∀ (f : Nat) (s : Str), s.length ≤ f →
      joinSep sep (pySplitAux sep f s) = s := by
  intro f
  induction f with
  | zero =>
    intro s hf
    cases s with
    | nil => rfl
    | cons c cs => simp at hf
  | succ f ih =>
    intro s hf
    cases s with
    | nil => rfl
    | cons c cs =>
      simp only [List.length_cons, Nat.succ_le_succ_iff] at hf
      simp only [pySplitAux]
      by_cases h : startsWithSeq sep (c :: cs) = true
      · simp only [h, if_true]
        rcases hrec : pySplitAux sep f (cs.drop (sep.length - 1)) with _ | ⟨r, rs⟩
        · exact absurd hrec (pySplitAux_ne_nil sep f _)
        · have hdroplen : (cs.drop (sep.length - 1)).length ≤ f :=
            le_trans (by simpa using List.length_drop_le _ _) hf
          have hjoin := ih (cs.drop (sep.length - 1)) hdroplen
          rw [hrec] at hjoin
          simp only [joinSep]
          rw [hjoin]
          have heq := startsWithSeq_eq_append h
          have hL : 1 ≤ sep.length := List.length_pos.mpr hsep
          have hdrop : (c :: cs).drop sep.length = cs.drop (sep.length - 1) := by
            rcases hn : sep.length with _ | n
            · omega
            · simp
          rw [hdrop] at heq
          simpa using heq.symm
      · simp only [h, if_false]
        rcases hrec : pySplitAux sep f cs with _ | ⟨r, rs⟩
        · exact absurd hrec (pySplitAux_ne_nil sep f _)
        · have hjoin := ih cs hf
          rw [hrec] at hjoin
          cases rs with
          | nil => simp only [joinSep] at hjoin ⊢; rw [hjoin]
          | cons u us =>
            simp only [joinSep] at hjoin ⊢
            rw [List.cons_append, List.cons_append, hjoin]

theorem joinSep_pySplit (sep : Str) (hsep : sep ≠ []) (s : Str) :
    joinSep sep (pySplit sep s) = s :=
  joinSep_pySplitAux sep hsep s.length s le_rfl

theorem pySplit_middle {sep s pre payload : Str} {rest : List Str}
    (hsep : sep ≠ [])
    (h : pySplit sep s = pre :: payload :: rest) :
    ∃ a b, s = a ++ payload ++ b := by
  have hj := joinSep_pySplit sep hsep s
  rw [h] at hj
  cases rest with
  | nil =>
    refine ⟨pre ++ sep, [], ?_⟩
    simp only [joinSep] at hj
    rw [← hj]
    simp [List.append_assoc]
  | cons r rs =>
    refine ⟨pre ++ sep, sep ++ joinSep sep (r :: rs), ?_⟩
    simp only [joinSep] at hj
    rw [← hj]
    simp [List.append_assoc]

/-! ## Lemmas about `pyStrip` -/

theorem pyStrip_middle (s : Str) : ∃ a b, s = a ++ pyStrip s ++ b := by
  refine ⟨s.takeWhile pyIsSpace,
    ((s.dropWhile pyIsSpace).reverse.takeWhile pyIsSpace).reverse, ?_⟩
  conv_lhs => rw [← List.takeWhile_append_dropWhile pyIsSpace s]
  rw [List.append_assoc]
  congr 1
  conv_lhs => rw [← List.reverse_reverse (s.dropWhile pyIsSpace),
    ← List.takeWhile_append_dropWhile pyIsSpace (s.dropWhile pyIsSpace).reverse]
  rw [List.reverse_append]
  rfl

theorem containsSeq_pyStrip {p s : Str} (h : containsSeq p (pyStrip s) = true) :
    containsSeq p s = true := by
  obtain ⟨a, b, hs⟩ := pyStrip_middle s
  rw [hs]
  exact containsSeq_middle a b h

/-! ## Lemmas about `pyFind` and `pySliceTo` -/

theorem pyFind_of_not_mem {c : Char} : ∀ {s : Str}, c ∉ s → pyFind c s = -1 := by
  intro s
  induction s with
  | nil => intro _; rfl
  | cons x xs ih =>
    intro h
    rw [List.mem_cons, not_or] at h
    have hx : (x == c) = false := by
      rw [beq_eq_false_iff_ne]
      exact fun he => h.1 (he ▸ rfl)
    simp only [pyFind, hx, Bool.false_eq_true, if_false, ih h.2]
    rfl

theorem pyFind_append {c : Char} : ∀ (a b : Str), c ∉ a →
    pyFind c (a ++ c :: b) = (a.length : Int) := by
  intro a
  induction a with
  | nil =>
    intro b _
    simp [pyFind]
  | cons x xs ih =>
    intro b h
    rw [List.mem_cons, not_or] at h
    have hx : (x == c) = false := by
      rw [beq_eq_false_iff_ne]
      exact fun he => h.1 (he ▸ rfl)
    simp only [List.cons_append, pyFind, hx, Bool.false_eq_true, if_false,
      List.append_eq, ih b h.2]
    rw [if_neg (by omega)]
    simp only [List.length_cons]
    push_cast
    ring

theorem pySliceTo_neg_one (s : Str) : pySliceTo s (-1) = s.dropLast := by
  unfold pySliceTo
  rw [if_pos (by omega)]
  have h1 : ((s.length : Int) + -1).toNat = s.length - 1 := by omega
  rw [h1, ← List.dropLast_eq_take]

theorem pySliceTo_natCast (s : Str) (n : Nat) : pySliceTo s (n : Int) = s.take n := by
  unfold pySliceTo
  rw [if_neg (by omega), Int.toNat_natCast]

/-! ## Lemmas about the set model and `processErrors` -/

theorem mem_insertSet {x v : Str} {s : List Str} :
    x ∈ insertSet s v ↔ x ∈ s ∨ x = v := by
  unfold insertSet
  split
  case isTrue h =>
    constructor
    · exact Or.inl
    · rintro (hx | rfl)
      · exact hx
      · exact h
  case isFalse h => simp

theorem mem_foldl_insertSet :
    ∀ (t : List Str) (s : List Str) (x : Str),
      x ∈ t.foldl insertSet s ↔ x ∈ s ∨ x ∈ t := by
  intro t
  induction t with
  | nil => simp
  | cons v vs ih =>
    intro s x
    rw [List.foldl_cons, ih, mem_insertSet, List.mem_cons]
    tauto

theorem processErrorsAux_mem_iff :
    ∀ (es : List Str) (acc s : List Str), processErrorsAux acc es = some s →
      ∀ x, (x ∈ s ↔ x ∈ acc ∨ ∃ e ∈ es, extractVidId e = some x) := by
  intro es
  induction es with
  | nil =>
    intro acc s h x
    simp only [processErrorsAux, Option.some_inj] at h
    subst h
    simp
  | cons e es ih =>
    intro acc s h x
    rcases he : extractVidId e with _ | v
    · rw [processErrorsAux, he] at h
      cases h
    · rw [processErrorsAux, he] at h
      rw [ih _ _ h x, mem_insertSet]
      simp only [List.mem_cons]
      constructor
      · rintro ((hx | rfl) | ⟨e', he', hx⟩)
        · exact Or.inl hx
        · exact Or.inr ⟨e, Or.inl rfl, he⟩
        · exact Or.inr ⟨e', Or.inr he', hx⟩
      · rintro (hx | ⟨e', (rfl | he'), hx⟩)
        · exact Or.inl (Or.inl hx)
        · rw [he] at hx
          exact Or.inl (Or.inr (Option.some_inj.mp hx).symm)
        · exact Or.inr ⟨e', he', hx⟩

theorem processErrors_mem_iff {errors s : List Str}
    (h : processErrors errors = some s) (x : Str) :
    x ∈ s ↔ ∃ e ∈ errors, extractVidId e = some x := by
  rw [processErrorsAux_mem_iff errors [] s h x]
  simp

theorem mem_setUpdate {s t : List Str} {x : Str} :
    x ∈ setUpdate s t ↔ x ∈ s ∨ x ∈ t :=
  mem_foldl_insertSet t s x

/-! ## Lemmas about the catalog built by `getVideosById` -/

theorem videoOfLine_fields {l : Str} {v : Video} (h : videoOfLine l = some v) :
    v.playCount = 1 ∧ v.isAnEpisode = episodeMatch v.title := by
  unfold videoOfLine at h
  rcases hp : parseLogLine l with _ | ⟨t, i, src⟩
  · rw [hp] at h
    cases h
  · rw [hp] at h
    rw [Option.some_inj] at h
    subst h
    exact ⟨rfl, rfl⟩

theorem insertVideo_wf {c : List (Str × Video)} {v : Video}
    (hc : catalogWf c) (h1 : v.playCount = 1)
    (h2 : v.isAnEpisode = episodeMatch v.title) :
    catalogWf (insertVideo c v) := by
  obtain ⟨hnd, hmem⟩ := hc
  unfold insertVideo
  split
  case isTrue h =>
    constructor
    · have hkeys :
          (c.map (fun p => if p.1 == v.vidId then (p.1, p.2.incrementCount) else p)).map
            Prod.fst = c.map Prod.fst := by
        rw [List.map_map]
        apply List.map_congr_left
        intro p _
        simp only [Function.comp_apply]
        by_cases hp : p.1 = v.vidId
        · rw [if_pos (beq_iff_eq.mpr hp)]
        · rw [if_neg (fun hc => hp (beq_iff_eq.mp hc))]
      rw [hkeys]
      exact hnd
    · intro p hp
      rw [List.mem_map] at hp
      obtain ⟨q, hq, rfl⟩ := hp
      obtain ⟨hq1, hq2, hq3⟩ := hmem q hq
      by_cases hqv : q.1 = v.vidId
      · rw [if_pos (beq_iff_eq.mpr hqv)]
        refine ⟨?_, ?_, ?_⟩
        · simpa [Video.incrementCount] using hq1
        · simp [Video.incrementCount]
        · simpa [Video.incrementCount] using hq3
      · rw [if_neg (fun hc => hqv (beq_iff_eq.mp hc))]
        exact ⟨hq1, hq2, hq3⟩
  case isFalse h =>
    rw [Bool.not_eq_true, List.any_eq_false] at h
    constructor
    · rw [List.map_append, List.nodup_append]
      refine ⟨hnd, by simp, ?_⟩
      intro k hk
      simp only [List.map_cons, List.map_nil, List.mem_singleton]
      intro hkv
      subst hkv
      rw [List.mem_map] at hk
      obtain ⟨q, hq, hq1⟩ := hk
      exact h q hq (beq_iff_eq.mpr hq1)
    · intro p hp
      rw [List.mem_append] at hp
      rcases hp with hp | hp
      · exact hmem p hp
      · rw [List.mem_singleton] at hp
        subst hp
        exact ⟨rfl, by simp [h1], h2⟩

theorem getVideosByIdAux_wf :
    ∀ (lines : List Str) (c : List (Str × Video)) (n : Nat), catalogWf c →
      catalogWf (getVideosByIdAux (c, n) lines).1 := by
  intro lines
  induction lines with
  | nil => intro c n hc; exact hc
  | cons l ls ih =>
    intro c n hc
    rcases hv : videoOfLine l with _ | v
    · simpa [getVideosByIdAux, hv] using ih c (n + 1) hc
    · obtain ⟨h1, h2⟩ := videoOfLine_fields hv
      simpa [getVideosByIdAux, hv] using ih _ n (insertVideo_wf hc h1 h2)

theorem catalogWf_nil : catalogWf [] := by
  constructor
  · simp
  · intro p hp
    cases hp

theorem getVideosById_wf (lines : List Str) : catalogWf (getVideosById lines).1 :=
  getVideosByIdAux_wf lines [] 0 catalogWf_nil

theorem getVideosByIdAux_fst :
    ∀ (lines : List Str) (c : List (Str × Video)) (n m : Nat),
      (getVideosByIdAux (c, n) lines).1 = (getVideosByIdAux (c, m) lines).1 := by
  intro lines
  induction lines with
  | nil => intro c n m; rfl
  | cons l ls ih =>
    intro c n m
    rcases hv : videoOfLine l with _ | v <;>
      simp only [getVideosByIdAux, hv] <;> apply ih

theorem getVideosByIdAux_snd :
    ∀ (lines : List Str) (c : List (Str × Video)) (n : Nat),
      (getVideosByIdAux (c, n) lines).2 =
        n + lines.countP (fun l => (videoOfLine l).isNone) := by
  intro lines
  induction lines with
  | nil => intro c n; simp [getVideosByIdAux]
  | cons l ls ih =>
    intro c n
    rcases hv : videoOfLine l with _ | v <;>
      simp only [getVideosByIdAux, hv] <;>
      rw [ih, List.countP_cons] <;> simp [hv] <;> omega

theorem getVideosByIdAux_filter :
    ∀ (lines : List Str) (c : List (Str × Video)) (n : Nat),
      (getVideosByIdAux (c, n) lines).1 =
        (getVideosByIdAux (c, n)
          (lines.filter (fun l => (videoOfLine l).isSome))).1 := by
  intro lines
  induction lines with
  | nil => intro c n; rfl
  | cons l ls ih =>
    intro c n
    rcases hv : videoOfLine l with _ | v
    · rw [List.filter_cons_of_neg (by simp [hv])]
      simp only [getVideosByIdAux, hv]
      rw [ih]
      exact getVideosByIdAux_fst _ _ _ _
    · rw [List.filter_cons_of_pos (by simp [hv])]
      simp only [getVideosByIdAux, hv]
      exact ih _ _

theorem videoOfLine_isSome (l : Str) :
    (videoOfLine l).isSome = (parseLogLine l).isSome := by
  unfold videoOfLine
  rcases hp : parseLogLine l with _ | ⟨t, i, src⟩ <;> rfl

theorem processErrorsAux_extract_some :
    ∀ (es : List Str) (acc s : List Str), processErrorsAux acc es = some s →
      ∀ e ∈ es, ∃ v, extractVidId e = some v := by
  intro es
  induction es with
  | nil =>
    intro acc s _ e he
    cases he
  | cons e' es ih =>
    intro acc s h e he
    rcases hv : extractVidId e' with _ | v
    · rw [processErrorsAux, hv] at h
      cases h
    · rw [processErrorsAux, hv] at h
      rcases List.mem_cons.mp he with rfl | he'
      · exact ⟨v, hv⟩
      · exact ih _ _ h e he'

theorem pySplit_writeUnavailableFile :
    ∀ ids : List Str, (∀ v ∈ ids, containsSeq ("\n".toList) v = false) →
      pySplit ("\n".toList) (writeUnavailableFile ids) = ids ++ [[]] := by
  intro ids
  induction ids with
  | nil => intro _; rfl
  | cons v vs ih =>
    intro h
    have hw : writeUnavailableFile (v :: vs) =
        v ++ "\n".toList ++ writeUnavailableFile vs := by
      simp [writeUnavailableFile]
    rw [hw, pySplit_append_sep ("\n".toList) (by decide) v (writeUnavailableFile vs)
      (by simpa using h v (by simp)),
      ih (fun u hu => h u (List.mem_cons_of_mem v hu))]
    rfl

/-! ## Membership in the filter output -/

theorem mem_filterVideos_iff {videosById : List (Str × Video)}
    {dl un : List Str} {req : Int} {v : Video} :
    v ∈ filterVideos videosById dl un req ↔
      v ∈ videosById.map Prod.snd ∧ req ≤ (v.playCount : Int) ∧
      v.vidId ∉ dl ∧ v.vidId ∉ un ∧ v.isAnEpisode = false := by
  unfold filterVideos videoShouldBeDownloaded
  rw [List.mem_filter]
  simp only [Bool.and_eq_true, decide_eq_true_iff, Bool.not_eq_true',
    decide_eq_false_iff_not, and_assoc]

/-! ## The claims -/

/-- C1: for every catalog, downloaded-id collection, unavailable-id set
and threshold, `filterVideos` returns exactly those records of the catalog
satisfying all four predicates (play count at least the threshold, id not
downloaded, id not unavailable, not an episode); a record failing any one
predicate is absent from the output. -/
theorem C1_filterVideos_exactly (videosById : List (Str × Video))
    (alreadyDownloadedIds knownUnavailableIds : List Str)
    (requiredPlays : Int) (v : Video) :
    v ∈ filterVideos videosById alreadyDownloadedIds knownUnavailableIds
        requiredPlays ↔
      (v ∈ videosById.map Prod.snd ∧
       requiredPlays ≤ (v.playCount : Int) ∧
       v.vidId ∉ alreadyDownloadedIds ∧
       v.vidId ∉ knownUnavailableIds ∧
       v.isAnEpisode = false) :=
  mem_filterVideos_iff

/-- C2 counterexample: this log line contains "Now Playing:" followed by
the YouTube delimiter, yet parsing fails, because the delimiter occurs
twice in the payload and the two-variable unpacking of the resulting
three-field split raises ValueError. -/
theorem C2_counterexample :
    containsSeq nowPlayingMarker
      ("Now Playing: t ( https://youtu.be/a ( https://youtu.be/b".toList) = true ∧
    pySplit nowPlayingMarker
      (pyStrip ("Now Playing: t ( https://youtu.be/a ( https://youtu.be/b".toList)) =
      [[], " t ( https://youtu.be/a ( https://youtu.be/b".toList] ∧
    containsSeq youtubeDelimiter
      (" t ( https://youtu.be/a ( https://youtu.be/b".toList) = true ∧
    parseLogLine
      ("Now Playing: t ( https://youtu.be/a ( https://youtu.be/b".toList) = none := by
  decide

/-- C2 amended: for every log line whose stripped text splits on
"Now Playing:" into at least two fields, if the second field is
title-delimiter-id with the matched delimiter occurring exactly once (no
occurrence inside the title overlapping or preceding it, none in the id),
parsing succeeds and yields the title before the delimiter, the id after
it, and the platform of the matched delimiter, the YouTube delimiter being
tried first; when a matched delimiter occurs more than once parsing fails
(see the counterexample). -/
theorem C2_parse_success_amended :
    (∀ (line pre t i : Str) (rest : List Str),
      pySplit nowPlayingMarker (pyStrip line) =
        pre :: (t ++ youtubeDelimiter ++ i) :: rest →
      containsSeq youtubeDelimiter (t ++ youtubeDelimiter.dropLast) = false →
      containsSeq youtubeDelimiter i = false →
      parseLogLine line = some (t, i, "yt".toList)) ∧
    (∀ (line pre t i : Str) (rest : List Str),
      pySplit nowPlayingMarker (pyStrip line) =
        pre :: (t ++ vimeoDelimiter ++ i) :: rest →
      containsSeq youtubeDelimiter (t ++ vimeoDelimiter ++ i) = false →
      containsSeq vimeoDelimiter (t ++ vimeoDelimiter.dropLast) = false →
      containsSeq vimeoDelimiter i = false →
      parseLogLine line = some (t, i, "vimeo".toList)) := by
  constructor
  · intro line pre t i rest hsplit hT hI
    have hcont : containsSeq youtubeDelimiter (t ++ youtubeDelimiter ++ i) = true := by
      rw [List.append_assoc]
      exact containsSeq_append_right t (containsSeq_append_left i
        (containsSeq_of_startsWith (startsWithSeq_self _)))
    have hsplit2 : pySplit youtubeDelimiter (t ++ youtubeDelimiter ++ i) = [t, i] := by
      rw [pySplit_append_sep youtubeDelimiter (by decide) t i hT,
        pySplit_of_not_contains youtubeDelimiter hI]
    simp only [parseLogLine, hsplit, hcont, if_true, hsplit2]
  · intro line pre t i rest hsplit hY hT hI
    have hcont : containsSeq vimeoDelimiter (t ++ vimeoDelimiter ++ i) = true := by
      rw [List.append_assoc]
      exact containsSeq_append_right t (containsSeq_append_left i
        (containsSeq_of_startsWith (startsWithSeq_self _)))
    have hsplit2 : pySplit vimeoDelimiter (t ++ vimeoDelimiter ++ i) = [t, i] := by
      rw [pySplit_append_sep vimeoDelimiter (by decide) t i hT,
        pySplit_of_not_contains vimeoDelimiter hI]
    simp only [parseLogLine, hsplit, hY, Bool.false_eq_true, if_false,
      hcont, if_true, hsplit2]

/-- C2 amended, witnessed at a concrete YouTube log line. -/
theorem C2_parse_success_amended_witness :
    parseLogLine ("-!- Now Playing: Title ( https://youtu.be/abc123".toList) =
      some (" Title".toList, "abc123".toList, "yt".toList) :=
  C2_parse_success_amended.1
    ("-!- Now Playing: Title ( https://youtu.be/abc123".toList)
    ("-!- ".toList) (" Title".toList) ("abc123".toList) []
    (by decide) (by decide) (by decide)

/-- C3: a line lacking the "Now Playing:" marker, or containing neither
the YouTube nor the Vimeo delimiter, fails to parse; every failed line is
excluded from the catalog while processing of the remaining lines
continues, and the reported failure count aggregates exactly the failed
lines. -/
theorem C3_parse_failure_nonfatal (line : Str) (lines : List Str)
    (h : containsSeq nowPlayingMarker line = false ∨
         (containsSeq youtubeDelimiter line = false ∧
          containsSeq vimeoDelimiter line = false)) :
    parseLogLine line = none ∧
    (getVideosById lines).2 = lines.countP (fun l => (parseLogLine l).isNone) ∧
    (getVideosById lines).1 =
      (getVideosById (lines.filter (fun l => (parseLogLine l).isSome))).1 := by
  refine ⟨?_, ?_, ?_⟩
  · rcases h with h | ⟨hy, hv⟩
    · have hm : containsSeq nowPlayingMarker (pyStrip line) = false := by
        rcases hc : containsSeq nowPlayingMarker (pyStrip line) with _ | _
        · rfl
        · rw [containsSeq_pyStrip hc] at h
          cases h
      unfold parseLogLine
      rw [pySplit_of_not_contains nowPlayingMarker hm]
    · rcases hsp : pySplit nowPlayingMarker (pyStrip line) with _ | ⟨pre, tail⟩
      · exact absurd hsp (pySplit_ne_nil _ _)
      · rcases tail with _ | ⟨payload, rest⟩
        · unfold parseLogLine
          rw [hsp]
        · have hyp : containsSeq youtubeDelimiter payload = false := by
            rcases hc : containsSeq youtubeDelimiter payload with _ | _
            · rfl
            · obtain ⟨a, b, hdec⟩ := pySplit_middle (by decide) hsp
              have : containsSeq youtubeDelimiter (pyStrip line) = true := by
                rw [hdec]
                exact containsSeq_middle a b hc
              rw [containsSeq_pyStrip this] at hy
              cases hy
          have hvp : containsSeq vimeoDelimiter payload = false := by
            rcases hc : containsSeq vimeoDelimiter payload with _ | _
            · rfl
            · obtain ⟨a, b, hdec⟩ := pySplit_middle (by decide) hsp
              have : containsSeq vimeoDelimiter (pyStrip line) = true := by
                rw [hdec]
                exact containsSeq_middle a b hc
              rw [containsSeq_pyStrip this] at hv
              cases hv
          simp only [parseLogLine, hsp, hyp, hvp, Bool.false_eq_true, if_false]
  · unfold getVideosById
    rw [getVideosByIdAux_snd, Nat.zero_add]
    apply List.countP_congr
    intro l _
    unfold videoOfLine
    rcases hp : parseLogLine l with _ | ⟨t, i, src⟩ <;> simp [hp]
  · unfold getVideosById
    rw [getVideosByIdAux_filter]
    have hfil : lines.filter (fun l => (videoOfLine l).isSome) =
        lines.filter (fun l => (parseLogLine l).isSome) := by
      apply List.filter_congr
      intro l _
      exact videoOfLine_isSome l
    rw [hfil]

/-- C3, witnessed at a concrete unparseable line and a concrete line
list containing one failing and one parsing line. -/
theorem C3_witness :
    parseLogLine ("hello world".toList) = none ∧
    (getVideosById ["hello world".toList,
        "-!- Now Playing: T ( https://youtu.be/x".toList]).2 =
      (["hello world".toList,
        "-!- Now Playing: T ( https://youtu.be/x".toList]).countP
        (fun l => (parseLogLine l).isNone) ∧
    (getVideosById ["hello world".toList,
        "-!- Now Playing: T ( https://youtu.be/x".toList]).1 =
      (getVideosById ((["hello world".toList,
        "-!- Now Playing: T ( https://youtu.be/x".toList]).filter
        (fun l => (parseLogLine l).isSome))).1 :=
  C3_parse_failure_nonfatal ("hello world".toList)
    ["hello world".toList, "-!- Now Playing: T ( https://youtu.be/x".toList]
    (Or.inl (by decide))

/-- C4: a record of a catalog built from log lines whose title matches the
episode pattern (one digit, x, two digits) is never present in the filter
output, regardless of its play count and of the threshold. -/
theorem C4_episode_never_output (lines : List Str)
    (alreadyDownloadedIds knownUnavailableIds : List Str) (requiredPlays : Int)
    (v : Video) (hep : episodeMatch v.title = true) :
    v ∉ filterVideos (getVideosById lines).1 alreadyDownloadedIds
        knownUnavailableIds requiredPlays := by
  intro hv
  rw [mem_filterVideos_iff] at hv
  obtain ⟨hmem, _, _, _, hflag⟩ := hv
  rw [List.mem_map] at hmem
  obtain ⟨p, hp, rfl⟩ := hmem
  obtain ⟨_, _, hwf3⟩ := (getVideosById_wf lines).2 p hp
  rw [hwf3, hep] at hflag
  cases hflag

/-- C4, witnessed at a concrete episode-titled video: it is in the catalog
built from its line, yet absent from the filter output even with
threshold 0. -/
theorem C4_witness :
    ({ title := "3x07".toList, vidId := "abc".toList, source := "yt".toList,
       playCount := 1, isAnEpisode := true } : Video) ∈
      (getVideosById ["Now Playing:3x07 ( https://youtu.be/abc".toList]).1.map
        Prod.snd ∧
    ({ title := "3x07".toList, vidId := "abc".toList, source := "yt".toList,
       playCount := 1, isAnEpisode := true } : Video) ∉
      filterVideos (getVideosById
        ["Now Playing:3x07 ( https://youtu.be/abc".toList]).1 [] [] 0 :=
  ⟨by decide,
   C4_episode_never_output ["Now Playing:3x07 ( https://youtu.be/abc".toList]
     [] [] 0 _ (by decide)⟩

/-- C5 counterexample: on the specification's own example error line, the
text after the FIRST ": " delimiter is "abc123: This video is
unavailable.", but the reconciler adds the second split field "abc123" to
the newly-unavailable set; the text after the first delimiter is not a
member of the returned set, refuting the claim's description of the
extraction. -/
theorem C5_counterexample :
    ("ERROR: abc123: This video is unavailable.".toList : Str) =
      "ERROR".toList ++ ": ".toList ++
        "abc123: This video is unavailable.".toList ∧
    containsSeq (": ".toList) ("ERROR".toList) = false ∧
    processErrors ["ERROR: abc123: This video is unavailable.".toList] =
      some ["abc123".toList] ∧
    ("abc123: This video is unavailable.".toList : Str) ∉
      (["abc123".toList] : List Str) := by
  decide

/-- C5 amended: the reconciler extracts the identifier as the second field
of splitting the line on ": " (the text between the first ": " and the
next one, or to the end of the line when there is only one), and whenever
`processErrors` returns a set — which requires every error line to contain
": ", since a line without it raises an uncaught IndexError — every error
line's extracted identifier, regardless of failure category or catalog
membership, is a member of the returned newly-unavailable set. -/
theorem C5_extract_in_set_amended (errors s : List Str)
    (h : processErrors errors = some s) :
    ∀ e ∈ errors, ∃ v, extractVidId e = some v ∧ v ∈ s := by
  intro e he
  obtain ⟨v, hv⟩ := processErrorsAux_extract_some errors [] s h e he
  exact ⟨v, hv, (processErrors_mem_iff h v).mpr ⟨e, he, hv⟩⟩

/-- C5 amended, witnessed at the specification's example error line (which
is also in the unavailable category). -/
theorem C5_witness :
    isUnavailableCategory
      ("ERROR: abc123: This video is unavailable.".toList) = true ∧
    ∃ v, extractVidId ("ERROR: abc123: This video is unavailable.".toList) =
        some v ∧ v ∈ (["abc123".toList] : List Str) :=
  ⟨by decide,
   C5_extract_in_set_amended
     ["ERROR: abc123: This video is unavailable.".toList] ["abc123".toList]
     (by decide) ("ERROR: abc123: This video is unavailable.".toList)
     (by decide)⟩

/-- C6: when the run reaches the final write, the persisted set is exactly
the union of the set loaded at start and the identifiers extracted from
the downloads that failed during the run; the file is rewritten from this
set alone (full overwrite), not appended to. -/
theorem C6_persisted_union (initial errors s : List Str)
    (h : mainPersistedSet initial errors = some s) (x : Str) :
    x ∈ s ↔ (x ∈ initial ∨ ∃ e ∈ errors, extractVidId e = some x) := by
  unfold mainPersistedSet at h
  by_cases hlen : errors.length > 0
  · rw [if_pos hlen] at h
    rcases hp : processErrors errors with _ | newly
    · rw [hp] at h
      cases h
    · rw [hp, Option.some_inj] at h
      subst h
      rw [mem_setUpdate, processErrors_mem_iff hp x]
  · rw [if_neg hlen, Option.some_inj] at h
    subst h
    have he : errors = [] := List.length_eq_zero.mp (by omega)
    subst he
    simp

/-- C6, witnessed at a concrete prior set and a concrete failing
download. -/
theorem C6_witness :
    mainPersistedSet ["old".toList]
      ["ERROR: abc: This video is unavailable.".toList] =
      some ["old".toList, "abc".toList] ∧
    ("abc".toList : Str) ∈ (["old".toList, "abc".toList] : List Str) :=
  ⟨by decide,
   (C6_persisted_union ["old".toList]
      ["ERROR: abc: This video is unavailable.".toList]
      ["old".toList, "abc".toList] (by decide) ("abc".toList)).mpr
     (Or.inr ⟨"ERROR: abc: This video is unavailable.".toList, by decide,
       by decide⟩)⟩

/-- C7: every catalog built from log lines has at most one record per
identifier and every record has been played at least once; processing
exactly two lines carrying the same identifier yields exactly one record
for that identifier with play count 2 (its other fields from the first
line). -/
theorem C7_catalog_dedup :
    (∀ lines : List Str,
      ((getVideosById lines).1.map Prod.fst).Nodup ∧
      ∀ p ∈ (getVideosById lines).1, 1 ≤ p.2.playCount) ∧
    (∀ l1 l2 t1 t2 i s1 s2 : Str,
      parseLogLine l1 = some (t1, i, s1) →
      parseLogLine l2 = some (t2, i, s2) →
      (getVideosById [l1, l2]).1 =
        [(i, { title := t1, vidId := i, source := s1, playCount := 2,
               isAnEpisode := episodeMatch t1 })]) := by
  constructor
  · intro lines
    obtain ⟨hnd, hmem⟩ := getVideosById_wf lines
    exact ⟨hnd, fun p hp => (hmem p hp).2.1⟩
  · intro l1 l2 t1 t2 i s1 s2 h1 h2
    simp [getVideosById, getVideosByIdAux, videoOfLine, h1, h2, insertVideo,
      Video.incrementCount]

/-- C7, witnessed at two concrete lines with the same identifier. -/
theorem C7_witness :
    (getVideosById ["-!- Now Playing: Foo ( https://youtu.be/abc".toList,
        "-!- Now Playing: Foo ( https://youtu.be/abc".toList]).1 =
      [("abc".toList,
        { title := " Foo".toList, vidId := "abc".toList,
          source := "yt".toList, playCount := 2, isAnEpisode := false })] :=
  C7_catalog_dedup.2
    ("-!- Now Playing: Foo ( https://youtu.be/abc".toList)
    ("-!- Now Playing: Foo ( https://youtu.be/abc".toList)
    (" Foo".toList) (" Foo".toList) ("abc".toList) ("yt".toList) ("yt".toList)
    (by decide) (by decide)

/-- C8: writing a set of identifiers to unavailableVideos.txt one per line
and reading it back with readInUnavailableVideos yields the same set of
ids, for identifiers that are whitespace-trimmed and newline-free. -/
theorem C8_roundtrip (ids : List Str)
    (h : ∀ v ∈ ids, pyStrip v = v ∧ containsSeq ("\n".toList) v = false)
    (x : Str) :
    x ∈ readInUnavailableVideos (some (writeUnavailableFile ids)) ↔ x ∈ ids := by
  simp only [readInUnavailableVideos, pyReadLines]
  rw [pySplit_writeUnavailableFile ids (fun v hv => (h v hv).2),
    List.getLast?_concat, if_pos rfl, List.dropLast_concat]
  have hmap : ids.map pyStrip = ids := by
    have h1 : ids.map pyStrip = ids.map id := by
      apply List.map_congr_left
      intro v hv
      exact (h v hv).1
    rw [h1, List.map_id]
  rw [hmap, mem_foldl_insertSet]
  simp

/-- C8, witnessed at a concrete two-element set. -/
theorem C8_witness :
    ("abc".toList : Str) ∈
      readInUnavailableVideos
        (some (writeUnavailableFile ["abc".toList, "xyz".toList])) :=
  (C8_roundtrip ["abc".toList, "xyz".toList] (by decide) ("abc".toList)).mpr
    (by decide)

/-- C9 counterexample: in the filename "a - - b.mp4" the last occurrence
of " - " starts at index 3 — the filename is "a -" ++ " - " ++ "b.mp4",
and neither "b.mp4" nor the longer tail "- b.mp4" that follows index 3
contains a further separator — so the substring between the last
occurrence and the first subsequent dot is "b"; `parseId`, which takes the
final field of Python's left-to-right non-overlapping split, returns
"- b" instead. -/
theorem C9_counterexample :
    ("a - - b.mp4".toList : Str) =
      "a -".toList ++ " - ".toList ++ "b.mp4".toList ∧
    containsSeq (" - ".toList) ("- b.mp4".toList) = false ∧
    pySliceTo ("b.mp4".toList) (pyFind '.' ("b.mp4".toList)) = "b".toList ∧
    parseId ("a - - b.mp4".toList) = "- b".toList ∧
    ("- b".toList : Str) ≠ "b".toList := by
  decide

/-- C9 amended: `getAlreadyDownloadedVidIds` returns the empty collection
when the target directory does not exist, and otherwise maps every listed
filename through `parseId`, which takes the text after the last separator
occurrence found by Python's left-to-right non-overlapping scan of " - "
(this can differ from the text after the rightmost occurrence when
occurrences overlap, see the counterexample) up to the first subsequent
dot: in particular for a filename pre ++ " - " ++ vid ++ "." ++ ext whose
separator occurs nowhere else and whose vid is dot-free, it returns vid. -/
theorem C9_downloaded_ids_amended :
    (getAlreadyDownloadedVidIds none = []) ∧
    (∀ names, getAlreadyDownloadedVidIds (some names) = names.map parseId) ∧
    (∀ pre vid ext : Str,
      containsSeq (" - ".toList) (pre ++ " -".toList) = false →
      containsSeq (" - ".toList) (vid ++ '.' :: ext) = false →
      '.' ∉ vid →
      parseId (pre ++ " - ".toList ++ vid ++ '.' :: ext) = vid) := by
  refine ⟨rfl, fun names => rfl, ?_⟩
  intro pre vid ext hpre hrest hdot
  have h1 : pySplit (" - ".toList) (pre ++ " - ".toList ++ (vid ++ '.' :: ext)) =
      pre :: pySplit (" - ".toList) (vid ++ '.' :: ext) :=
    pySplit_append_sep (" - ".toList) (by decide) pre (vid ++ '.' :: ext)
      (by exact hpre)
  simp only [parseId]
  rw [show pre ++ " - ".toList ++ vid ++ '.' :: ext =
      pre ++ " - ".toList ++ (vid ++ '.' :: ext) by simp [List.append_assoc],
    h1, pySplit_of_not_contains (" - ".toList) hrest,
    show ((pre :: [vid ++ '.' :: ext] : List Str).getLastD []) =
      vid ++ '.' :: ext from rfl,
    pyFind_append vid ext hdot, pySliceTo_natCast, List.take_left]

/-- C9 amended, witnessed at a well-formed downloaded filename. -/
theorem C9_witness :
    parseId ("My Title".toList ++ " - ".toList ++ "abc123".toList ++
        '.' :: "mp4".toList) = "abc123".toList :=
  C9_downloaded_ids_amended.2.2 ("My Title".toList) ("abc123".toList)
    ("mp4".toList) (by decide) (by decide) (by decide)

/-- C10: for a filename whose portion after the last scanned " - "
separator contains no dot, str.find returns -1 and the slice up to -1
drops the final character, so `parseId` returns that portion with its last
character removed and the true identifier is never recovered into the
already-downloaded collection. -/
theorem C10_missing_dot_drops_last (filename : Str)
    (h : '.' ∉ (pySplit (" - ".toList) filename).getLastD []) :
    parseId filename =
      ((pySplit (" - ".toList) filename).getLastD []).dropLast := by
  simp only [parseId]
  rw [pyFind_of_not_mem h, pySliceTo_neg_one]

/-- C10, witnessed at a concrete extensionless filename: the stored id
abc123 comes back truncated to abc12. -/
theorem C10_witness :
    parseId ("Title - abc123".toList) = "abc12".toList := by
  rw [C10_missing_dot_drops_last ("Title - abc123".toList) (by decide)]
  decide

end BTBackup
